import Mathlib

/-!
Shallow embedding of the browser-fingerprinting library (src/index.js).

JS strings are modelled as `List Char` (Unicode scalar values); the rolling
hash iterates UTF-16 code units, which `utf16Units` computes from a scalar.
JS 32-bit signed integer wrapping (the ToInt32 abstract operation applied by
the shift and bitwise-and operators) is modelled by `toInt32` on `Int`.
Host-provided primitives that the source calls (the per-origin cookie store
behind `document.cookie`, `decodeURIComponent` restricted to single-byte
percent escapes, `Number.prototype.toString/16/`, `JSON.stringify`) are
modelled explicitly below next to the code that uses them.
-/

set_option maxRecDepth 8192

namespace SamarithanModel

/-- JS ToInt32: wrap an integer to the signed 32-bit range. -/
def toInt32 (x : Int) : Int :=
  (x + 2147483648) % 4294967296 - 2147483648

/-- One step of the rolling hash from the source
(hashComponents, src/index.js lines 170-174):
the char code is added as in JS, where the shift result is wrapped to
int32 and the trailing bitwise-and wraps the whole accumulator again. -/
def hashStep (h : Int) (code : Nat) : Int :=
  toInt32 (toInt32 (toInt32 h * 32) - h + (code : Int))

/-- Step written exactly as the specification phrases the algorithm:
h is updated to (h shifted left by 5) - h + code, wrapped once to the
signed 32-bit range at every step. -/
def hashStepSpec (h : Int) (code : Nat) : Int :=
  toInt32 (h * 32 - h + (code : Int))

/-- Hex digit character (lowercase), as produced by JS Number.toString(16). -/
def hexDigitChar (n : Nat) : Char :=
  if n < 10 then Char.ofNat (48 + n) else Char.ofNat (87 + n)

/-- Fuel-driven base-16 digit accumulator modelling JS Number.toString(16)
on a nonnegative integer. -/
def natToHexCore : Nat → Nat → List Char → List Char
  | 0, _, ds => ds
  | fuel + 1, n, ds =>
    let d := hexDigitChar (n % 16)
    let n2 := n / 16
    if n2 = 0 then d :: ds else natToHexCore fuel n2 (d :: ds)

/-- Lowercase hexadecimal rendering of a natural number, no leading zeros
(except for 0 itself), as JS Number.toString(16) renders magnitudes. -/
def natToHex (n : Nat) : List Char :=
  natToHexCore (n + 1) n []

/-- JS Number.prototype.toString(16) on an int32 value: lowercase hex,
with the sign of the numeric value kept (a leading minus when negative). -/
def int32ToHex (i : Int) : List Char :=
  if i < 0 then '-' :: natToHex i.natAbs else natToHex i.toNat

mutual

/-- JSON-serializable values (the model of what a collector may report).
Mutual with its list and property-list forms so that all recursion below
is structural. -/
inductive JsonValue : Type where
  | null : JsonValue
  | bool : Bool → JsonValue
  | num : Int → JsonValue
  | str : String → JsonValue
  | arr : JsonList → JsonValue
  | obj : JsonProps → JsonValue

inductive JsonList : Type where
  | nil : JsonList
  | cons : JsonValue → JsonList → JsonList

inductive JsonProps : Type where
  | nil : JsonProps
  | cons : String → JsonValue → JsonProps → JsonProps

end

/-- Convert an ordinary list of values to the mutual list form. -/
def toJsonList : List JsonValue → JsonList
  | [] => .nil
  | v :: vs => .cons v (toJsonList vs)

/-- JSON.stringify escaping of one character inside a string literal. -/
def escapeChar (c : Char) : List Char :=
  if c = '"' then ['\\', '"']
  else if c = '\\' then ['\\', '\\']
  else if c.toNat = 8 then ['\\', 'b']
  else if c.toNat = 9 then ['\\', 't']
  else if c.toNat = 10 then ['\\', 'n']
  else if c.toNat = 12 then ['\\', 'f']
  else if c.toNat = 13 then ['\\', 'r']
  else if c.toNat < 32 then
    ['\\', 'u', '0', '0', hexDigitChar (c.toNat / 16), hexDigitChar (c.toNat % 16)]
  else [c]

/-- JSON.stringify rendering of a string literal, quotes included. -/
def quoteString (s : String) : List Char :=
  '"' :: ((s.data.map escapeChar).flatten ++ ['"'])

mutual

/-- Modelled host primitive: JSON.stringify, producing the canonical
serialization the hashing code folds over. -/
def stringifyValue : JsonValue → List Char
  | .null => "null".data
  | .bool b => if b then "true".data else "false".data
  | .num n => (Int.repr n).data
  | .str s => quoteString s
  | .arr l => '[' :: (stringifyArrItems l ++ [']'])
  | .obj ps => Char.ofNat 123 :: (stringifyProps ps ++ [Char.ofNat 125])

/-- Comma-separated serialization of array items. -/
def stringifyArrItems : JsonList → List Char
  | .nil => []
  | .cons v .nil => stringifyValue v
  | .cons v (.cons w l) => stringifyValue v ++ ',' :: stringifyArrItems (.cons w l)

/-- Comma-separated serialization of object properties. -/
def stringifyProps : JsonProps → List Char
  | .nil => []
  | .cons k v .nil => quoteString k ++ ':' :: stringifyValue v
  | .cons k v (.cons k2 v2 l) =>
    quoteString k ++ ':' :: stringifyValue v ++ ',' :: stringifyProps (.cons k2 v2 l)

end

/-- UTF-16 code units of one Unicode scalar value, as charCodeAt sees them. -/
def utf16Units (c : Char) : List Nat :=
  let n := c.toNat
  if n < 65536 then [n]
  else [55296 + (n - 65536) / 1024, 56320 + (n - 65536) % 1024]

/-- UTF-16 code-unit stream of a string. -/
def strUtf16 (s : List Char) : List Nat :=
  (s.map utf16Units).flatten

/-- The Identity Hasher on an ordered list of values
(hashComponents, src/index.js lines 167-176): serialize the value list
with JSON.stringify, fold the rolling hash over the char codes, render
the final signed 32-bit accumulator in lowercase hex. -/
def hashValues (vs : List JsonValue) : List Char :=
  int32ToHex ((strUtf16 (stringifyValue (.arr (toJsonList vs)))).foldl hashStep 0)

/-- A collector result: the key/value pair every collector must report
(the SignalResult shape of the spec). -/
structure SignalResult : Type where
  key : String
  value : JsonValue

/-- A registered collector, identified with the outcome of its zero-argument
produce operation: either a SignalResult or a raised error. -/
abbrev Collector : Type := Except String SignalResult

/-- Modelled host state: the per-origin cookie store behind document.cookie,
a list of name/value records in storage order. -/
abbrev CookieJar : Type := List (List Char × List Char)

/-- Host cookie-store update: replace the record with the given name in
place, or append a fresh record at the end. -/
def jarSet (jar : CookieJar) (n v : List Char) : CookieJar :=
  match jar with
  | [] => [(n, v)]
  | (n1, v1) :: rest => if n1 = n then (n, v) :: rest else (n1, v1) :: jarSet rest n v

/-- Modelled host primitive: reading document.cookie renders the jar as
records joined by a semicolon and a space, each as name=value. -/
def docCookie : CookieJar → List Char
  | [] => []
  | (n, v) :: jar =>
    n ++ '=' :: v ++ (if jar.isEmpty then [] else ';' :: ' ' :: docCookie jar)

/-- Modelled host primitive: assigning to document.cookie keeps only the
part before the first semicolon (the attributes after it are metadata the
read-back string never shows) and splits it at the first equals sign. -/
def docCookieWrite (jar : CookieJar) (assigned : List Char) : CookieJar :=
  let nv := assigned.takeWhile (fun c => c ≠ ';')
  let n := nv.takeWhile (fun c => c ≠ '=')
  jarSet jar n (nv.drop (n.length + 1))

/-- Numeric value of a hexadecimal digit character. -/
def hexVal (c : Char) : Option Nat :=
  if '0' ≤ c ∧ c ≤ '9' then some (c.toNat - 48)
  else if 'a' ≤ c ∧ c ≤ 'f' then some (c.toNat - 87)
  else if 'A' ≤ c ∧ c ≤ 'F' then some (c.toNat - 55)
  else none

/-- Modelled host primitive: decodeURIComponent, restricted here to
single-byte (ASCII) percent escapes; none models the thrown URIError for
malformed escapes and the multi-byte sequences outside this model. -/
def percentDecode : List Char → Option (List Char)
  | [] => some []
  | c :: rest =>
    if c = '%' then
      match rest with
      | a :: b :: rest2 =>
        match hexVal a, hexVal b with
        | some ha, some hb =>
          if 16 * ha + hb < 128 then
            (percentDecode rest2).map (fun l => Char.ofNat (16 * ha + hb) :: l)
          else none
        | _, _ => none
      | _ => none
    else (percentDecode rest).map (fun l => c :: l)

/-- Split a string at every semicolon, as the split call in getCookie does. -/
def splitSemi : List Char → List (List Char)
  | [] => [[]]
  | c :: rest =>
    let gs := splitSemi rest
    if c = ';' then [] :: gs else (c :: gs.headD []) :: gs.tail

/-- Drop leading spaces, as the while loop in getCookie does. -/
def trimSp (l : List Char) : List Char :=
  l.dropWhile (fun c => c = ' ')

/-- One candidate cookie entry from getCookie: trim leading spaces, and if
the entry starts with name= return everything after that prefix. -/
def matchEntry (nameEq entry : List Char) : Option (List Char) :=
  let e := trimSp entry
  if nameEq.isPrefixOf e then some (e.drop nameEq.length) else none

/-- The for-loop of getCookie: return the first entry match. -/
def findCookieValue (nameEq : List Char) : List (List Char) → Option (List Char)
  | [] => none
  | e :: es =>
    match matchEntry nameEq e with
    | some v => some v
    | none => findCookieValue nameEq es

/-- The body of getCookie (src/index.js lines 104-117) over a rendered
document.cookie string: percent-decode the whole string, split at
semicolons, return the value of the first entry whose trimmed form starts
with name=, or none. -/
def getCookieFrom (cookieName doc : List Char) : Except String (Option (List Char)) :=
  match percentDecode doc with
  | none => .error "URIError"
  | some decoded => .ok (findCookieValue (cookieName ++ ['=']) (splitSemi decoded))

/-- A JS value as it may appear in the options object: enough of the JS
value space to express the falsy/truthy distinction the constructor uses. -/
inductive JsValue : Type where
  | undef : JsValue
  | null : JsValue
  | bool : Bool → JsValue
  | num : Int → JsValue
  | str : String → JsValue
deriving DecidableEq

/-- JS ToBoolean on the modelled value space. -/
def truthy : JsValue → Bool
  | .undef => false
  | .null => false
  | .bool b => b
  | .num n => n != 0
  | .str s => s != ""

/-- JS ToString on the modelled value space (template-literal coercion). -/
def jsToString : JsValue → String
  | .undef => "undefined"
  | .null => "null"
  | .bool b => if b then "true" else "false"
  | .num n => Int.repr n
  | .str s => s

/-- The options object accepted by the constructor and by load. -/
structure Options : Type where
  apiKey : JsValue
  cookieName : JsValue
  cookieDays : JsValue

/-- The BrowserFingerprint instance state after construction. -/
structure BrowserFingerprint : Type where
  apiKey : JsValue
  cookieName : JsValue
  cookieDays : JsValue
  components : List Collector

/-- The constructor (src/index.js lines 84-95): resolve cookieName and
cookieDays with JS or-defaulting (any falsy value is replaced), then throw
when apiKey is falsy; no instance escapes on the error path. -/
def BrowserFingerprint.init (o : Options) : Except String BrowserFingerprint :=
  if truthy o.apiKey then
    .ok ⟨o.apiKey,
         (if truthy o.cookieName then o.cookieName else .str "smbfjs_id"),
         (if truthy o.cookieDays then o.cookieDays else .num 365),
         []⟩
  else .error "API key is required"

/-- addComponent (src/index.js lines 124-127): append to the registry. -/
def BrowserFingerprint.addComponent (fp : BrowserFingerprint) (c : Collector) :
    BrowserFingerprint :=
  ⟨fp.apiKey, fp.cookieName, fp.cookieDays, fp.components ++ [c]⟩

/-- setCookie (src/index.js lines 97-102): assign
name=value;expires=...;path=/;SameSite=Lax to document.cookie. The expiry
date text depends on the clock and is ignored by the modelled write, so it
appears here as a fixed placeholder. -/
def BrowserFingerprint.setCookie (fp : BrowserFingerprint) (value : List Char)
    (jar : CookieJar) : CookieJar :=
  docCookieWrite jar
    ((jsToString fp.cookieName).data ++ '=' :: value ++
      (";expires=DATE;path=/;SameSite=Lax").data)

/-- getCookie (src/index.js lines 104-117) against the modelled jar. -/
def BrowserFingerprint.getCookie (fp : BrowserFingerprint) (jar : CookieJar) :
    Except String (Option (List Char)) :=
  getCookieFrom (jsToString fp.cookieName).data (docCookie jar)

/-- Promise.all over the registered collectors (src/index.js line 135):
with collectors identified with their settled outcomes, the aggregate
resolves with all results in registration order, or rejects with the error
of the first collector that raised. -/
def collect : List Collector → Except String (List SignalResult)
  | [] => .ok []
  | c :: cs => do
    let r ← c
    let rs ← collect cs
    .ok (r :: rs)

/-- The fixed stable key allow-list (src/index.js lines 138-149). -/
def stableKeys : List String :=
  ["userAgent", "hardwareConcurrency", "deviceMemory", "language", "colorDepth",
   "pixelRatio", "videoCard", "canvas", "webgl", "fonts"]

/-- The Stable Subset Selector (src/index.js lines 137-150): keep the
results whose key is in the allow-list, in input order. -/
def selectStable (rs : List SignalResult) : List SignalResult :=
  rs.filter (fun c => stableKeys.contains c.key)

/-- hashComponents (src/index.js lines 167-176): hash the value of each
given result, in order. -/
def hashComponents (components : List SignalResult) : List Char :=
  hashValues (components.map (fun c => c.value))

/-- The resolved value of get: visitorId always, fromCookie true on the
cache-hit path (the miss path leaves the field absent, modelled as false),
components only on the cache-miss path. -/
structure GetResult : Type where
  visitorId : List Char
  fromCookie : Bool
  components : Option (List SignalResult)

/-- The cache-miss path of get (src/index.js lines 134-158): collect all
components, filter to the stable subset, hash, write the cookie, resolve
with the id and the full component list. -/
def BrowserFingerprint.getMiss (fp : BrowserFingerprint) (jar : CookieJar) :
    Except String (GetResult × CookieJar) := do
  let comps ← collect fp.components
  let vid := hashComponents (selectStable comps)
  .ok (⟨vid, false, some comps⟩, fp.setCookie vid jar)

/-- get (src/index.js lines 129-165). The verifyApiKey stub always
resolves true and is omitted. A falsy cookie read (absent record or empty
string) takes the miss path; otherwise the hit path returns the cached id
with fromCookie true and no components, leaving the jar unchanged. -/
def BrowserFingerprint.get (fp : BrowserFingerprint) (jar : CookieJar) :
    Except String (GetResult × CookieJar) := do
  let visitorId ← fp.getCookie jar
  match visitorId with
  | some v => if v = [] then fp.getMiss jar else .ok (⟨v, true, none⟩, jar)
  | none => fp.getMiss jar

/-- Fingerprint.load (src/index.js lines 865-896): construct the instance
(failing on a missing apiKey before anything else), then register the
default collectors one by one. The concrete default collectors read
ambient host state, so the list is a parameter here. -/
def Fingerprint.load (defaultCollectors : List Collector) (o : Options) :
    Except String BrowserFingerprint :=
  match BrowserFingerprint.init o with
  | .ok bf => .ok (defaultCollectors.foldl BrowserFingerprint.addComponent bf)
  | .error e => .error e

/-- The key a registered collector would report, when it does not raise. -/
def collectorKey : Collector → Option String
  | .ok r => some r.key
  | .error _ => none

/-- A cookie value that survives the store encoding: no record separator
and no percent escape, so the write is not truncated and the read-side
percent-decoding is the identity on it. -/
@[reducible] def plainVal (l : List Char) : Prop :=
  ∀ c ∈ l, c ≠ ';' ∧ c ≠ '%'

/-- A well-formed record name: nonempty, and free of the separator,
escape, equals and space characters that the wire format reserves. -/
@[reducible] def plainName (l : List Char) : Prop :=
  l ≠ [] ∧ ∀ c ∈ l, c ≠ ';' ∧ c ≠ '%' ∧ c ≠ '=' ∧ c ≠ ' '

/-- A well-formed ambient cookie store: every record has a well-formed
name and an encoding-stable value. -/
@[reducible] def wfJar (jar : CookieJar) : Prop :=
  ∀ p ∈ jar, plainName p.1 ∧ plainVal p.2

/-- Direct lookup in the modelled jar (the reference the cookie read is
proved against). -/
def jarGet : CookieJar → List Char → Option (List Char)
  | [], _ => none
  | (n, v) :: rest, name => if n = name then some v else jarGet rest name

/-- The concrete two-collector session of the §8 scenario. -/
def fpUA : BrowserFingerprint :=
  ⟨.str "k", .str "smbfjs_id", .num 365,
   [Except.ok ⟨"userAgent", .str "UA-X"⟩, Except.ok ⟨"canvas", .str "CANVAS-Y"⟩]⟩

/-- A concrete registry with a null value and an error-string value among
the reported results. -/
def fpMixed : BrowserFingerprint :=
  ⟨.str "k", .str "smbfjs_id", .num 365,
   [Except.ok ⟨"userAgent", .str "UA-X"⟩, Except.ok ⟨"audio", .null⟩,
    Except.ok ⟨"webgl", .str "WebGL unsupported"⟩]⟩

/-- The concrete session whose second collector raises. -/
def fpRaise : BrowserFingerprint :=
  ⟨.str "k", .str "smbfjs_id", .num 365,
   [Except.ok ⟨"userAgent", .str "UA-X"⟩, Except.error "boom",
    Except.ok ⟨"canvas", .str "CANVAS-Y"⟩]⟩

/-- The signal results reported by the two collectors of fpUA. -/
def uaComponents : List SignalResult :=
  [⟨"userAgent", .str "UA-X"⟩, ⟨"canvas", .str "CANVAS-Y"⟩]

/-- The visitor id the fpUA session computes. -/
def uaHash : List Char := hashComponents (selectStable uaComponents)

/-- The store the first fpUA get call leaves behind when it starts empty. -/
def uaJar1 : CookieJar := fpUA.setCookie uaHash []

/-! Facts about the 32-bit wrap and the rolling hash. -/

lemma toInt32_lb (x : Int) : -2147483648 ≤ toInt32 x := by
  unfold toInt32
  omega

lemma toInt32_ub (x : Int) : toInt32 x < 2147483648 := by
  unfold toInt32
  omega

lemma toInt32_emod (a : Int) : toInt32 a % 4294967296 = a % 4294967296 := by
  unfold toInt32
  omega

lemma toInt32_congr (a b : Int) (h : a % 4294967296 = b % 4294967296) :
    toInt32 a = toInt32 b := by
  unfold toInt32
  omega

/-- The source step (shift wrapped, then the bitwise-and wrap) agrees with
the specification reading (one wrap of the whole update per character). -/
lemma hashStep_eq_spec (h : Int) (c : Nat) : hashStep h c = hashStepSpec h c := by
  apply toInt32_congr
  have h1 : toInt32 h % 4294967296 = h % 4294967296 := toInt32_emod h
  have h2 : toInt32 (toInt32 h * 32) % 4294967296 = (h * 32) % 4294967296 := by
    rw [toInt32_emod]
    omega
  omega

lemma foldl_hashStep_eq_spec (l : List Nat) (h : Int) :
    l.foldl hashStep h = l.foldl hashStepSpec h := by
  induction l generalizing h with
  | nil => rfl
  | cons c l ih => simp only [List.foldl_cons, hashStep_eq_spec, ih]

/-- Every intermediate accumulator value along the fold stays in the
signed 32-bit range. -/
lemma scanl_hashStep_range (l : List Nat) (h : Int)
    (hh : -2147483648 ≤ h ∧ h < 2147483648) :
    ∀ x ∈ l.scanl hashStep h, -2147483648 ≤ x ∧ x < 2147483648 := by
  induction l generalizing h with
  | nil =>
    intro x hx
    simp only [List.scanl_nil, List.mem_singleton] at hx
    exact hx ▸ hh
  | cons c l ih =>
    intro x hx
    simp only [List.scanl_cons, List.singleton_append, List.mem_cons] at hx
    rcases hx with rfl | hx
    · exact hh
    · exact ih (hashStep h c) ⟨toInt32_lb _, toInt32_ub _⟩ x hx

/-- C1. The Identity Hasher is a deterministic pure function of the value
list: it serializes the values (values only, in list order) with
JSON.stringify, folds the signed 32-bit accumulator over the UTF-16 char
codes with h updated to (h shifted left 5) - h + code and wrapped to the
signed 32-bit range at every step (every intermediate accumulator lies in
that range), and renders the final accumulator as lowercase hex with the
sign included; two calls on the same input return the same string. -/
theorem hashValues_deterministic_and_follows_spec (vs : List JsonValue) :
    hashValues vs = hashValues vs ∧
    hashValues vs =
      int32ToHex
        ((strUtf16 (stringifyValue (.arr (toJsonList vs)))).foldl hashStepSpec 0) ∧
    ∀ x ∈ (strUtf16 (stringifyValue (.arr (toJsonList vs)))).scanl hashStep 0,
      -2147483648 ≤ x ∧ x < 2147483648 := by
  refine ⟨rfl, ?_, ?_⟩
  · unfold hashValues
    rw [foldl_hashStep_eq_spec]
  · exact scanl_hashStep_range _ 0 (by omega)

/-! Facts about the collection phase and the get pipeline. -/

lemma collect_map_ok (rs : List SignalResult) :
    collect (rs.map Except.ok) = .ok rs := by
  induction rs with
  | nil => rfl
  | cons r rs ih =>
    simp only [List.map_cons, collect, ih]
    rfl

lemma collect_of_all_ok (cs : List Collector)
    (h : ∀ c ∈ cs, ∃ r, c = Except.ok r) :
    ∃ rs, collect cs = .ok rs ∧ rs.map Except.ok = cs := by
  induction cs with
  | nil => exact ⟨[], rfl, rfl⟩
  | cons c cs ih =>
    obtain ⟨r, rfl⟩ := h c (List.mem_cons_self c cs)
    obtain ⟨rs, hrs, hmap⟩ := ih (fun c hc => h c (List.mem_cons_of_mem _ hc))
    refine ⟨r :: rs, ?_, by simp [hmap]⟩
    simp only [collect, hrs]
    try rfl

lemma collect_first_error (cs1 : List Collector) (e : String) (cs2 : List Collector)
    (h : ∀ c ∈ cs1, ∃ r, c = Except.ok r) :
    collect (cs1 ++ Except.error e :: cs2) = .error e := by
  induction cs1 with
  | nil => rfl
  | cons c cs1 ih =>
    obtain ⟨r, rfl⟩ := h c (List.mem_cons_self c cs1)
    have ih2 := ih (fun c hc => h c (List.mem_cons_of_mem _ hc))
    show Except.bind (collect (cs1 ++ Except.error e :: cs2))
        (fun rs => Except.ok (r :: rs)) = Except.error e
    rw [ih2]
    rfl

lemma getMiss_eq (fp : BrowserFingerprint) (jar : CookieJar)
    (rs : List SignalResult) (hcol : collect fp.components = .ok rs) :
    fp.getMiss jar =
      .ok (⟨hashComponents (selectStable rs), false, some rs⟩,
           fp.setCookie (hashComponents (selectStable rs)) jar) := by
  simp only [BrowserFingerprint.getMiss, hcol]
  rfl

lemma get_of_read_none (fp : BrowserFingerprint) (jar : CookieJar)
    (h : fp.getCookie jar = .ok none) : fp.get jar = fp.getMiss jar := by
  simp only [BrowserFingerprint.get, h]
  rfl

lemma get_of_read_empty (fp : BrowserFingerprint) (jar : CookieJar)
    (h : fp.getCookie jar = .ok (some [])) : fp.get jar = fp.getMiss jar := by
  simp only [BrowserFingerprint.get, h]
  rfl

lemma getMiss_unfold (fp : BrowserFingerprint) (jar : CookieJar) :
    fp.getMiss jar =
      Except.bind (collect fp.components) (fun comps =>
        .ok (⟨hashComponents (selectStable comps), false, some comps⟩,
             fp.setCookie (hashComponents (selectStable comps)) jar)) := rfl

lemma get_unfold (fp : BrowserFingerprint) (jar : CookieJar) :
    fp.get jar =
      Except.bind (fp.getCookie jar) (fun r =>
        match r with
        | some v => if v = [] then fp.getMiss jar else .ok (⟨v, true, none⟩, jar)
        | none => fp.getMiss jar) := rfl

lemma get_of_read_hit (fp : BrowserFingerprint) (jar : CookieJar) (v : List Char)
    (hv : v ≠ []) (h : fp.getCookie jar = .ok (some v)) :
    fp.get jar = .ok (⟨v, true, none⟩, jar) := by
  rw [get_unfold, h]
  show (if v = [] then fp.getMiss jar else Except.ok (⟨v, true, none⟩, jar)) = _
  rw [if_neg hv]

/-- C2. On a cache miss (the cookie read reports no record or an empty
one), get runs the full pipeline: collect every registered component,
filter to the stable key set, hash the stable subset into visitorId,
write visitorId to the store, and resolve with the id and the full
collected list (fromCookie stays false, the absent-field value). -/
theorem get_cache_miss_runs_pipeline (fp : BrowserFingerprint) (jar : CookieJar)
    (rs : List SignalResult)
    (hmiss : fp.getCookie jar = .ok none ∨ fp.getCookie jar = .ok (some []))
    (hcol : collect fp.components = .ok rs) :
    fp.get jar =
      .ok (⟨hashComponents (selectStable rs), false, some rs⟩,
           fp.setCookie (hashComponents (selectStable rs)) jar) := by
  rcases hmiss with h | h
  · rw [get_of_read_none fp jar h, getMiss_eq fp jar rs hcol]
  · rw [get_of_read_empty fp jar h, getMiss_eq fp jar rs hcol]

/-- Witness for C2, on the concrete §8 scenario: userAgent reports UA-X
and canvas reports CANVAS-Y, the store is empty, and the result carries
the full two-element component list and the hash of both values. -/
theorem get_cache_miss_runs_pipeline_witness :
    fpUA.get [] =
      .ok (⟨hashComponents (selectStable
              [⟨"userAgent", .str "UA-X"⟩, ⟨"canvas", .str "CANVAS-Y"⟩]),
            false,
            some [⟨"userAgent", .str "UA-X"⟩, ⟨"canvas", .str "CANVAS-Y"⟩]⟩,
           fpUA.setCookie (hashComponents (selectStable
              [⟨"userAgent", .str "UA-X"⟩, ⟨"canvas", .str "CANVAS-Y"⟩])) []) ∧
    hashComponents (selectStable
        [⟨"userAgent", .str "UA-X"⟩, ⟨"canvas", .str "CANVAS-Y"⟩]) =
      hashValues [.str "UA-X", .str "CANVAS-Y"] :=
  ⟨get_cache_miss_runs_pipeline fpUA []
      [⟨"userAgent", .str "UA-X"⟩, ⟨"canvas", .str "CANVAS-Y"⟩]
      (Or.inl rfl) rfl,
   rfl⟩

/-- C3. When every registered collector returns a SignalResult without
raising (its value may be null or an error string), the component list the
collection phase of get produces has the same length as the registry and
its keys appear in registration order. -/
theorem get_components_match_registry (fp : BrowserFingerprint) (jar : CookieJar)
    (hmiss : fp.getCookie jar = .ok none ∨ fp.getCookie jar = .ok (some []))
    (hok : ∀ c ∈ fp.components, ∃ r, c = Except.ok r) :
    ∃ rs, fp.get jar =
        .ok (⟨hashComponents (selectStable rs), false, some rs⟩,
             fp.setCookie (hashComponents (selectStable rs)) jar) ∧
      rs.length = fp.components.length ∧
      rs.map (fun r => some r.key) = fp.components.map collectorKey := by
  obtain ⟨rs, hrs, hmap⟩ := collect_of_all_ok fp.components hok
  refine ⟨rs, get_cache_miss_runs_pipeline fp jar rs hmiss hrs, ?_, ?_⟩
  · rw [← hmap, List.length_map]
  · rw [← hmap, List.map_map]
    rfl

/-- Witness for C3 at a concrete registry with a null value and an error
string value among the results. -/
theorem get_components_match_registry_witness :
    ∃ rs, fpMixed.get [] =
        .ok (⟨hashComponents (selectStable rs), false, some rs⟩,
             fpMixed.setCookie (hashComponents (selectStable rs)) []) ∧
      rs.length = fpMixed.components.length ∧
      rs.map (fun r => some r.key) = fpMixed.components.map collectorKey :=
  get_components_match_registry fpMixed [] (Or.inl rfl)
    (by
      intro c hc
      simp only [fpMixed, List.mem_cons, List.not_mem_nil, or_false] at hc
      rcases hc with rfl | rfl | rfl
      · exact ⟨_, rfl⟩
      · exact ⟨_, rfl⟩
      · exact ⟨_, rfl⟩)

/-- C4. The Stable Subset Selector returns exactly the input elements
whose key belongs to the fixed ten-key stable set, as an order-preserving
sublist of the input (registration order, not the order of the set);
missing stable keys simply yield no output element, with no error. -/
theorem selectStable_exact_ordered_subset (rs : List SignalResult) :
    (selectStable rs).Sublist rs ∧
    (∀ c, c ∈ selectStable rs ↔ c ∈ rs ∧ c.key ∈ stableKeys) ∧
    stableKeys = ["userAgent", "hardwareConcurrency", "deviceMemory", "language",
      "colorDepth", "pixelRatio", "videoCard", "canvas", "webgl", "fonts"] := by
  refine ⟨List.filter_sublist rs, ?_, rfl⟩
  intro c
  rw [selectStable, List.mem_filter]
  constructor
  · rintro ⟨hm, hc⟩
    exact ⟨hm, List.elem_iff.mp hc⟩
  · rintro ⟨hm, hc⟩
    exact ⟨hm, List.elem_eq_true_of_mem hc⟩

/-- C6. Construction through load with a falsy apiKey fails at once with
the configuration error, whatever the default collector list is; the
error path returns no session value at all, and no collector result is
consulted (the outcome is the same for every collector list). -/
theorem load_missing_apiKey_fails (cols : List Collector) (o : Options)
    (h : truthy o.apiKey = false) :
    Fingerprint.load cols o = .error "API key is required" ∧
    ∀ cols2, Fingerprint.load cols2 o = Fingerprint.load cols o := by
  have hinit : BrowserFingerprint.init o = .error "API key is required" := by
    simp [BrowserFingerprint.init, h]
  constructor
  · simp [Fingerprint.load, hinit]
  · intro cols2
    simp [Fingerprint.load, hinit]

/-- Witness for C6: load with an empty options object. -/
theorem load_missing_apiKey_fails_witness :
    Fingerprint.load [] ⟨.undef, .undef, .undef⟩ = .error "API key is required" ∧
    ∀ cols2, Fingerprint.load cols2 ⟨.undef, .undef, .undef⟩ =
      Fingerprint.load [] ⟨.undef, .undef, .undef⟩ :=
  load_missing_apiKey_fails [] ⟨.undef, .undef, .undef⟩ rfl

/-- C8. If the registry contains a collector that raises (the collectors
before it all return normally), the whole collection phase fails: on a
cache miss, get rejects with that first raising collector error instead
of resolving with a partial component list. -/
theorem get_rejects_on_raising_collector (fp : BrowserFingerprint) (jar : CookieJar)
    (cs1 : List Collector) (e : String) (cs2 : List Collector)
    (hcomp : fp.components = cs1 ++ Except.error e :: cs2)
    (hok : ∀ c ∈ cs1, ∃ r, c = Except.ok r)
    (hmiss : fp.getCookie jar = .ok none ∨ fp.getCookie jar = .ok (some [])) :
    fp.get jar = .error e := by
  have hcol : collect fp.components = .error e := by
    rw [hcomp]
    exact collect_first_error cs1 e cs2 hok
  have hmissget : fp.get jar = fp.getMiss jar := by
    rcases hmiss with h | h
    · exact get_of_read_none fp jar h
    · exact get_of_read_empty fp jar h
  rw [hmissget]
  simp only [BrowserFingerprint.getMiss, hcol]
  rfl

/-- Witness for C8: with an empty store, the session whose second
collector raises makes get reject with that error. -/
theorem get_rejects_on_raising_collector_witness :
    fpRaise.get [] = .error "boom" :=
  get_rejects_on_raising_collector fpRaise []
    [Except.ok ⟨"userAgent", .str "UA-X"⟩] "boom"
    [Except.ok ⟨"canvas", .str "CANVAS-Y"⟩] rfl
    (by
      intro c hc
      simp only [List.mem_singleton] at hc
      exact ⟨_, hc⟩)
    (Or.inl rfl)

/-- C9. Any falsy configured cookieName or cookieDays (empty string, 0,
null, false, undefined) is silently replaced by the default, exactly as if
the field were absent (undefined): the constructed state equals the one
built from options with that field set to undefined, cookieName resolves
to smbfjs_id and cookieDays to 365. -/
theorem init_falsy_config_defaults (o : Options) (hk : truthy o.apiKey = true) :
    (truthy o.cookieName = false →
      BrowserFingerprint.init o =
        BrowserFingerprint.init ⟨o.apiKey, .undef, o.cookieDays⟩ ∧
      ∃ fp, BrowserFingerprint.init o = .ok fp ∧ fp.cookieName = .str "smbfjs_id") ∧
    (truthy o.cookieDays = false →
      BrowserFingerprint.init o =
        BrowserFingerprint.init ⟨o.apiKey, o.cookieName, .undef⟩ ∧
      ∃ fp, BrowserFingerprint.init o = .ok fp ∧ fp.cookieDays = .num 365) := by
  have hu : truthy JsValue.undef = false := rfl
  constructor
  · intro hname
    refine ⟨?_, ⟨o.apiKey, .str "smbfjs_id",
        (if truthy o.cookieDays then o.cookieDays else .num 365), []⟩, ?_, rfl⟩
    · simp [BrowserFingerprint.init, hk, hname, hu]
    · simp [BrowserFingerprint.init, hk, hname]
  · intro hdays
    refine ⟨?_, ⟨o.apiKey,
        (if truthy o.cookieName then o.cookieName else .str "smbfjs_id"),
        .num 365, []⟩, ?_, rfl⟩
    · simp [BrowserFingerprint.init, hk, hdays, hu]
    · simp [BrowserFingerprint.init, hk, hdays]

/-- Witness for C9 at the concrete falsy values of the claim: an empty
string cookieName and a cookieDays of 0 are replaced by smbfjs_id and
365. -/
theorem init_falsy_config_defaults_witness :
    (truthy (.str "") = false →
      BrowserFingerprint.init ⟨.str "key", .str "", .num 0⟩ =
        BrowserFingerprint.init ⟨.str "key", .undef, .num 0⟩ ∧
      ∃ fp, BrowserFingerprint.init ⟨.str "key", .str "", .num 0⟩ = .ok fp ∧
        fp.cookieName = .str "smbfjs_id") ∧
    (truthy (.num 0) = false →
      BrowserFingerprint.init ⟨.str "key", .str "", .num 0⟩ =
        BrowserFingerprint.init ⟨.str "key", .str "", .undef⟩ ∧
      ∃ fp, BrowserFingerprint.init ⟨.str "key", .str "", .num 0⟩ = .ok fp ∧
        fp.cookieDays = .num 365) :=
  init_falsy_config_defaults ⟨.str "key", .str "", .num 0⟩ rfl

/-! Facts about the modelled cookie store and the cookie read/write pair. -/

lemma takeWhile_append_all (p : Char → Bool) (l1 l2 : List Char)
    (h : ∀ c ∈ l1, p c = true) :
    (l1 ++ l2).takeWhile p = l1 ++ l2.takeWhile p := by
  induction l1 with
  | nil => rfl
  | cons a l1 ih =>
    rw [List.cons_append, List.takeWhile_cons, if_pos (h a (List.mem_cons_self a l1)),
      ih (fun c hc => h c (List.mem_cons_of_mem _ hc)), List.cons_append]

lemma cons_headD_tail (xs : List (List Char)) (h : xs ≠ []) :
    xs.headD [] :: xs.tail = xs := by
  cases xs with
  | nil => exact absurd rfl h
  | cons a xs => rfl

lemma splitSemi_ne_nil (l : List Char) : splitSemi l ≠ [] := by
  cases l with
  | nil => exact List.cons_ne_nil _ _
  | cons c rest =>
    rw [splitSemi]
    by_cases hc : c = ';'
    · rw [if_pos hc]
      exact List.cons_ne_nil _ _
    · rw [if_neg hc]
      exact List.cons_ne_nil _ _

lemma splitSemi_no_semi (l : List Char) (h : ∀ c ∈ l, c ≠ ';') :
    splitSemi l = [l] := by
  induction l with
  | nil => rfl
  | cons c rest ih =>
    rw [splitSemi, if_neg (h c (List.mem_cons_self c rest)),
      ih (fun c hc => h c (List.mem_cons_of_mem _ hc))]
    rfl

lemma splitSemi_append (e l : List Char) (he : ∀ c ∈ e, c ≠ ';') :
    splitSemi (e ++ l) = (e ++ (splitSemi l).headD []) :: (splitSemi l).tail := by
  induction e with
  | nil =>
    rw [List.nil_append, List.nil_append]
    exact (cons_headD_tail _ (splitSemi_ne_nil l)).symm
  | cons c e ih =>
    rw [List.cons_append, splitSemi, if_neg (he c (List.mem_cons_self c e)),
      ih (fun c hc => he c (List.mem_cons_of_mem _ hc))]
    rfl

lemma splitSemi_semi (l : List Char) : splitSemi (';' :: l) = [] :: splitSemi l := by
  rw [splitSemi, if_pos rfl]

lemma percentDecode_id (l : List Char) (h : ∀ c ∈ l, c ≠ '%') :
    percentDecode l = some l := by
  induction l with
  | nil => rfl
  | cons c rest ih =>
    conv_lhs => unfold percentDecode
    rw [if_neg (h c (List.mem_cons_self c rest)),
      ih (fun c hc => h c (List.mem_cons_of_mem _ hc))]
    rfl

lemma docCookie_no_pct (jar : CookieJar) (hjar : wfJar jar) :
    ∀ c ∈ docCookie jar, c ≠ '%' := by
  induction jar with
  | nil => intro c hc; exact absurd hc (List.not_mem_nil c)
  | cons p tl ih =>
    obtain ⟨n, v⟩ := p
    obtain ⟨⟨-, hn⟩, hv⟩ := hjar (n, v) (List.mem_cons_self _ tl)
    have ihtl := ih (fun q hq => hjar q (List.mem_cons_of_mem _ hq))
    intro c hc
    rw [docCookie] at hc
    rcases List.mem_append.mp hc with hc1 | hc2
    · rcases List.mem_append.mp hc1 with hcn | hc1b
      · exact (hn c hcn).2.1
      · rcases List.mem_cons.mp hc1b with rfl | hcv
        · decide
        · exact (hv c hcv).2
    · cases tl with
      | nil => simp at hc2
      | cons q tl2 =>
        simp only [List.isEmpty_cons, Bool.false_eq_true, if_false] at hc2
        rcases List.mem_cons.mp hc2 with rfl | hc5
        · decide
        · rcases List.mem_cons.mp hc5 with rfl | hc6
          · decide
          · exact ihtl c hc6

lemma matchEntry_space (q e : List Char) :
    matchEntry q (' ' :: e) = matchEntry q e := by
  rw [matchEntry, matchEntry]
  rfl

lemma matchEntry_found (name v : List Char) (hn : plainName name) :
    matchEntry (name ++ ['=']) (name ++ '=' :: v) = some v := by
  obtain ⟨hne, hchars⟩ := hn
  have htrim : trimSp (name ++ '=' :: v) = name ++ '=' :: v := by
    cases name with
    | nil => exact absurd rfl hne
    | cons c name2 =>
      rw [List.cons_append, trimSp, List.dropWhile_cons]
      rw [if_neg]
      simp only [decide_eq_true_eq]
      exact (hchars c (List.mem_cons_self c name2)).2.2.2
  have hsplit : name ++ '=' :: v = (name ++ ['=']) ++ v := by
    rw [List.append_assoc]
    rfl
  rw [matchEntry, htrim, hsplit]
  rw [if_pos]
  · rw [List.drop_left]
  · rw [List.isPrefixOf_iff_prefix]
    exact List.prefix_append _ _

lemma eq_of_matching_entry (a b w : List Char)
    (ha : ∀ c ∈ a, c ≠ '=') (hb : ∀ c ∈ b, c ≠ '=')
    (hpre : (a ++ ['=']) <+: (b ++ '=' :: w)) : a = b := by
  induction a generalizing b with
  | nil =>
    cases b with
    | nil => rfl
    | cons d b2 =>
      rw [List.nil_append, List.cons_append] at hpre
      obtain ⟨heq, -⟩ := (List.cons_prefix_cons).mp hpre
      exact absurd heq.symm (hb d (List.mem_cons_self d b2))
  | cons c a2 ih =>
    cases b with
    | nil =>
      rw [List.cons_append, List.nil_append] at hpre
      obtain ⟨heq, -⟩ := (List.cons_prefix_cons).mp hpre
      exact absurd heq (ha c (List.mem_cons_self c a2))
    | cons d b2 =>
      rw [List.cons_append, List.cons_append] at hpre
      obtain ⟨heq, hpre2⟩ := (List.cons_prefix_cons).mp hpre
      have h2 := ih b2 (fun c hc => ha c (List.mem_cons_of_mem _ hc))
        (fun c hc => hb c (List.mem_cons_of_mem _ hc)) hpre2
      rw [heq, h2]

lemma matchEntry_other (name n v : List Char) (hname : plainName name)
    (hn : plainName n) (hne : n ≠ name) :
    matchEntry (name ++ ['=']) (n ++ '=' :: v) = none := by
  obtain ⟨hne0, hchars⟩ := hn
  have htrim : trimSp (n ++ '=' :: v) = n ++ '=' :: v := by
    cases n with
    | nil => exact absurd rfl hne0
    | cons c n2 =>
      rw [List.cons_append, trimSp, List.dropWhile_cons]
      rw [if_neg]
      simp only [decide_eq_true_eq]
      exact (hchars c (List.mem_cons_self c n2)).2.2.2
  rw [matchEntry, htrim, if_neg]
  intro hpre
  rw [List.isPrefixOf_iff_prefix] at hpre
  exact hne (eq_of_matching_entry name n v
    (fun c hc => (hname.2 c hc).2.2.1) (fun c hc => (hchars c hc).2.2.1) hpre).symm

lemma entry_no_semi (n v : List Char) (hpn : plainName n) (hpv : plainVal v) :
    ∀ c ∈ n ++ '=' :: v, c ≠ ';' := by
  intro c hc
  rcases List.mem_append.mp hc with h1 | h2
  · exact (hpn.2 c h1).1
  · rcases List.mem_cons.mp h2 with rfl | h3
    · decide
    · exact (hpv c h3).1

lemma findCookieValue_cons_some (q e : List Char) (es : List (List Char))
    (v : List Char) (h : matchEntry q e = some v) :
    findCookieValue q (e :: es) = some v := by
  conv_lhs => unfold findCookieValue
  rw [h]

lemma findCookieValue_cons_none (q e : List Char) (es : List (List Char))
    (h : matchEntry q e = none) :
    findCookieValue q (e :: es) = findCookieValue q es := by
  conv_lhs => unfold findCookieValue
  rw [h]

lemma matchEntry_nil (name : List Char) (hn : plainName name) :
    matchEntry (name ++ ['=']) [] = none := by
  obtain ⟨hne, -⟩ := hn
  cases name with
  | nil => exact absurd rfl hne
  | cons c n2 => rfl

lemma findCookie_space (q l : List Char) :
    findCookieValue q (splitSemi (' ' :: l)) = findCookieValue q (splitSemi l) := by
  have h := splitSemi_ne_nil l
  have hsp : splitSemi (' ' :: l) =
      (' ' :: (splitSemi l).headD []) :: (splitSemi l).tail := by
    rw [splitSemi, if_neg (by decide)]
  rw [hsp]
  conv_rhs => rw [← cons_headD_tail (splitSemi l) h]
  cases hm : matchEntry q ((splitSemi l).headD []) with
  | some v =>
    rw [findCookieValue_cons_some _ _ _ v (by rw [matchEntry_space]; exact hm),
      findCookieValue_cons_some _ _ _ v hm]
  | none =>
    rw [findCookieValue_cons_none _ _ _ (by rw [matchEntry_space]; exact hm),
      findCookieValue_cons_none _ _ _ hm]

lemma findCookieValue_docCookie (name : List Char) (jar : CookieJar)
    (hn : plainName name) (hjar : wfJar jar) :
    findCookieValue (name ++ ['=']) (splitSemi (docCookie jar)) = jarGet jar name := by
  induction jar with
  | nil =>
    rw [show docCookie [] = [] from rfl, show splitSemi [] = [[]] from rfl,
      findCookieValue_cons_none _ _ _ (matchEntry_nil name hn)]
    rfl
  | cons p tl ih =>
    obtain ⟨n, v⟩ := p
    obtain ⟨hpn, hpv⟩ := hjar (n, v) (List.mem_cons_self _ tl)
    have ihtl := ih (fun q hq => hjar q (List.mem_cons_of_mem _ hq))
    have he := entry_no_semi n v hpn hpv
    rw [jarGet]
    cases tl with
    | nil =>
      have hdoc : docCookie [(n, v)] = n ++ '=' :: v := by
        rw [docCookie]
        simp
      rw [hdoc, splitSemi_no_semi _ he]
      by_cases hname : n = name
      · subst hname
        rw [if_pos rfl, findCookieValue_cons_some _ _ _ v (matchEntry_found n v hpn)]
      · rw [if_neg hname,
          findCookieValue_cons_none _ _ _ (matchEntry_other name n v hn hpn hname)]
        rfl
    | cons q2 tl2 =>
      have hdoc : docCookie ((n, v) :: q2 :: tl2) =
          (n ++ '=' :: v) ++ ';' :: ' ' :: docCookie (q2 :: tl2) := by
        rw [docCookie]
        simp
      rw [hdoc, splitSemi_append _ _ he, splitSemi_semi, List.headD_cons,
        List.tail_cons, List.append_nil]
      by_cases hname : n = name
      · subst hname
        rw [if_pos rfl, findCookieValue_cons_some _ _ _ v (matchEntry_found n v hpn)]
      · rw [if_neg hname,
          findCookieValue_cons_none _ _ _ (matchEntry_other name n v hn hpn hname),
          findCookie_space, ihtl]

lemma getCookieFrom_docCookie (name : List Char) (jar : CookieJar)
    (hn : plainName name) (hjar : wfJar jar) :
    getCookieFrom name (docCookie jar) = .ok (jarGet jar name) := by
  conv_lhs => unfold getCookieFrom
  rw [percentDecode_id _ (docCookie_no_pct jar hjar)]
  show Except.ok (findCookieValue (name ++ ['=']) (splitSemi (docCookie jar))) = _
  rw [findCookieValue_docCookie name jar hn hjar]

lemma jarGet_jarSet_self (jar : CookieJar) (n v : List Char) :
    jarGet (jarSet jar n v) n = some v := by
  induction jar with
  | nil =>
    rw [jarSet, jarGet, if_pos rfl]
  | cons p rest ih =>
    obtain ⟨n1, v1⟩ := p
    rw [jarSet]
    by_cases h : n1 = n
    · rw [if_pos h, jarGet, if_pos rfl]
    · rw [if_neg h, jarGet, if_neg h, ih]

lemma wfJar_jarSet (n v : List Char) (hn : plainName n) (hv : plainVal v) :
    ∀ jar, wfJar jar → wfJar (jarSet jar n v) := by
  intro jar
  induction jar with
  | nil =>
    intro _ p hp
    rw [jarSet] at hp
    rw [List.mem_singleton.mp hp]
    exact ⟨hn, hv⟩
  | cons q rest ih =>
    intro hjar p hp
    obtain ⟨n1, v1⟩ := q
    rw [jarSet] at hp
    by_cases h : n1 = n
    · rw [if_pos h] at hp
      rcases List.mem_cons.mp hp with rfl | hp2
      · exact ⟨hn, hv⟩
      · exact hjar p (List.mem_cons_of_mem _ hp2)
    · rw [if_neg h] at hp
      rcases List.mem_cons.mp hp with rfl | hp2
      · exact hjar (n1, v1) (List.mem_cons_self _ _)
      · exact ih (fun r hr => hjar r (List.mem_cons_of_mem _ hr)) p hp2

lemma setCookie_eq_jarSet (fp : BrowserFingerprint) (v : List Char) (jar : CookieJar)
    (hn : plainName (jsToString fp.cookieName).data) (hv : plainVal v) :
    fp.setCookie v jar = jarSet jar (jsToString fp.cookieName).data v := by
  have he := entry_no_semi (jsToString fp.cookieName).data v hn hv
  have hattrs : ((";expires=DATE;path=/;SameSite=Lax").data).takeWhile
      (fun c => c ≠ ';') = [] := rfl
  have hnv : (((jsToString fp.cookieName).data ++ '=' :: v) ++
      (";expires=DATE;path=/;SameSite=Lax").data).takeWhile (fun c => c ≠ ';') =
      (jsToString fp.cookieName).data ++ '=' :: v := by
    rw [takeWhile_append_all _ _ _ (fun c hc => decide_eq_true (he c hc)), hattrs,
      List.append_nil]
  have hname : ((jsToString fp.cookieName).data ++ '=' :: v).takeWhile
      (fun c => c ≠ '=') = (jsToString fp.cookieName).data := by
    rw [takeWhile_append_all _ _ _
      (fun c hc => decide_eq_true (hn.2 c hc).2.2.1)]
    rw [show ('=' :: v).takeWhile (fun c => c ≠ '=') = [] from
      by rw [List.takeWhile_cons, if_neg (by decide)], List.append_nil]
  have hval : ((jsToString fp.cookieName).data ++ '=' :: v).drop
      ((jsToString fp.cookieName).data.length + 1) = v := by
    have hsplit : (jsToString fp.cookieName).data ++ '=' :: v =
        ((jsToString fp.cookieName).data ++ ['=']) ++ v := by
      rw [List.append_assoc]
      rfl
    have hlen : ((jsToString fp.cookieName).data ++ ['=']).length =
        (jsToString fp.cookieName).data.length + 1 := by simp
    rw [hsplit, ← hlen, List.drop_left]
  rw [BrowserFingerprint.setCookie]
  simp only [docCookieWrite]
  rw [hnv, hname, hval]

/-- Round trip through the modelled store: a write of an encoding-stable
value under a well-formed name in a well-formed store is returned intact
by the immediately following read. -/
lemma cookie_roundtrip (fp : BrowserFingerprint) (jar : CookieJar) (v : List Char)
    (hn : plainName (jsToString fp.cookieName).data) (hjar : wfJar jar)
    (hv : plainVal v) :
    fp.getCookie (fp.setCookie v jar) = .ok (some v) := by
  rw [BrowserFingerprint.getCookie, setCookie_eq_jarSet fp v jar hn hv,
    getCookieFrom_docCookie _ _ hn
      (wfJar_jarSet (jsToString fp.cookieName).data v hn hv jar hjar),
    jarGet_jarSet_self]

/-! The rendered hash is a nonempty string of lowercase hex digits and an
optional leading minus, so it survives the store encoding. -/

lemma hexDigitChar_plain (m : Nat) (hm : m < 16) :
    hexDigitChar m ≠ ';' ∧ hexDigitChar m ≠ '%' := by
  interval_cases m <;> exact (by decide)

lemma natToHexCore_chars (P : Char → Prop) (hP : ∀ m, m < 16 → P (hexDigitChar m)) :
    ∀ fuel n ds, (∀ c ∈ ds, P c) → ∀ c ∈ natToHexCore fuel n ds, P c := by
  intro fuel
  induction fuel with
  | zero =>
    intro n ds hds c hc
    rw [natToHexCore] at hc
    exact hds c hc
  | succ fuel ih =>
    intro n ds hds c hc
    simp only [natToHexCore] at hc
    have hmod : n % 16 < 16 := Nat.mod_lt _ (by norm_num)
    by_cases h : n / 16 = 0
    · rw [if_pos h] at hc
      rcases List.mem_cons.mp hc with rfl | hc2
      · exact hP _ hmod
      · exact hds c hc2
    · rw [if_neg h] at hc
      refine ih (n / 16) (hexDigitChar (n % 16) :: ds) ?_ c hc
      intro d hd
      rcases List.mem_cons.mp hd with rfl | hd2
      · exact hP _ hmod
      · exact hds d hd2

lemma natToHexCore_ne_nil_of_ds (fuel : Nat) :
    ∀ n ds, ds ≠ [] → natToHexCore fuel n ds ≠ [] := by
  induction fuel with
  | zero =>
    intro n ds hds
    rw [natToHexCore]
    exact hds
  | succ fuel ih =>
    intro n ds hds
    simp only [natToHexCore]
    by_cases h : n / 16 = 0
    · rw [if_pos h]
      exact List.cons_ne_nil _ _
    · rw [if_neg h]
      exact ih _ _ (List.cons_ne_nil _ _)

lemma natToHex_ne_nil (n : Nat) : natToHex n ≠ [] := by
  rw [natToHex]
  simp only [natToHexCore]
  by_cases h : n / 16 = 0
  · rw [if_pos h]
    exact List.cons_ne_nil _ _
  · rw [if_neg h]
    exact natToHexCore_ne_nil_of_ds _ _ _ (List.cons_ne_nil _ _)

lemma natToHex_plainVal (n : Nat) : plainVal (natToHex n) := by
  intro c hc
  rw [natToHex] at hc
  exact natToHexCore_chars (fun c => c ≠ ';' ∧ c ≠ '%') hexDigitChar_plain _ _ []
    (fun d hd => absurd hd (List.not_mem_nil d)) c hc

lemma int32ToHex_plainVal (i : Int) : plainVal (int32ToHex i) := by
  intro c hc
  rw [int32ToHex] at hc
  by_cases h : i < 0
  · rw [if_pos h] at hc
    rcases List.mem_cons.mp hc with rfl | hc2
    · exact ⟨by decide, by decide⟩
    · exact natToHex_plainVal _ c hc2
  · rw [if_neg h] at hc
    exact natToHex_plainVal _ c hc

lemma int32ToHex_ne_nil (i : Int) : int32ToHex i ≠ [] := by
  rw [int32ToHex]
  by_cases h : i < 0
  · rw [if_pos h]
    exact List.cons_ne_nil _ _
  · rw [if_neg h]
    exact natToHex_ne_nil _

lemma hashComponents_plainVal (cs : List SignalResult) :
    plainVal (hashComponents cs) := by
  rw [hashComponents, hashValues]
  exact int32ToHex_plainVal _

lemma hashComponents_ne_nil (cs : List SignalResult) : hashComponents cs ≠ [] := by
  rw [hashComponents, hashValues]
  exact int32ToHex_ne_nil _

/-! The cached-identity theorems. -/

/-- C5. With a well-formed record name and store, two sequential get calls
(no expiry or external store change is modelled between them) agree on the
visitorId: the second call returns exactly the cached id with fromCookie
true and no components, leaves the store untouched, and runs no collection
phase (its outcome is the same whatever the registered collectors are). -/
theorem get_twice_idempotent (fp : BrowserFingerprint) (jar jar1 : CookieJar)
    (r1 : GetResult)
    (hn : plainName (jsToString fp.cookieName).data)
    (hjar : wfJar jar)
    (h1 : fp.get jar = .ok (r1, jar1)) :
    fp.get jar1 = .ok (⟨r1.visitorId, true, none⟩, jar1) ∧
    ∀ cs, BrowserFingerprint.get ⟨fp.apiKey, fp.cookieName, fp.cookieDays, cs⟩ jar1 =
      fp.get jar1 := by
  have hmiss : fp.get jar = fp.getMiss jar → fp.get jar1 =
      .ok (⟨r1.visitorId, true, none⟩, jar1) ∧
      ∀ cs, BrowserFingerprint.get ⟨fp.apiKey, fp.cookieName, fp.cookieDays, cs⟩ jar1 =
        fp.get jar1 := by
    intro hget
    rw [hget] at h1
    cases hcol : collect fp.components with
    | error e =>
      rw [getMiss_unfold, hcol] at h1
      exact Except.noConfusion h1
    | ok rs =>
      rw [getMiss_eq fp jar rs hcol] at h1
      injection h1 with h2
      injection h2 with h1a h1b
      subst h1a
      subst h1b
      have hread : fp.getCookie (fp.setCookie (hashComponents (selectStable rs)) jar) =
          .ok (some (hashComponents (selectStable rs))) :=
        cookie_roundtrip fp jar _ hn hjar (hashComponents_plainVal (selectStable rs))
      have hhit := get_of_read_hit fp _ _ (hashComponents_ne_nil (selectStable rs)) hread
      refine ⟨by rw [hhit], ?_⟩
      intro cs
      have hread2 : BrowserFingerprint.getCookie
          ⟨fp.apiKey, fp.cookieName, fp.cookieDays, cs⟩
          (fp.setCookie (hashComponents (selectStable rs)) jar) =
          .ok (some (hashComponents (selectStable rs))) := hread
      rw [hhit, get_of_read_hit _ _ _ (hashComponents_ne_nil (selectStable rs)) hread2]
  cases hread : fp.getCookie jar with
  | error e =>
    rw [get_unfold, hread] at h1
    exact Except.noConfusion h1
  | ok vo =>
    cases vo with
    | none => exact hmiss (get_of_read_none fp jar hread)
    | some v =>
      by_cases hv : v = []
      · subst hv
        exact hmiss (get_of_read_empty fp jar hread)
      · have hhit := get_of_read_hit fp jar v hv hread
        rw [hhit] at h1
        injection h1 with h2
        injection h2 with h1a h1b
        subst h1a
        subst h1b
        refine ⟨by rw [hhit], ?_⟩
        intro cs
        have hread2 : BrowserFingerprint.getCookie
            ⟨fp.apiKey, fp.cookieName, fp.cookieDays, cs⟩ jar = .ok (some v) := hread
        rw [hhit, get_of_read_hit _ jar v hv hread2]

/-- Witness for C5: the two-collector session run against an empty store;
the second call reads back the id the first call wrote. -/
theorem get_twice_idempotent_witness :
    fpUA.get uaJar1 = .ok (⟨uaHash, true, none⟩, uaJar1) ∧
    ∀ cs, BrowserFingerprint.get
        ⟨fpUA.apiKey, fpUA.cookieName, fpUA.cookieDays, cs⟩ uaJar1 =
      fpUA.get uaJar1 :=
  get_twice_idempotent fpUA [] uaJar1 ⟨uaHash, false, some uaComponents⟩
    (by decide) (by decide) rfl

/-- C7 fails as stated: the store does not percent-encode on write (the
value goes in verbatim), while the read percent-decodes, so a value that
is itself a percent escape comes back changed. -/
theorem write_read_percent_value_mangled :
    fpUA.setCookie (("%41").data) [] = [(("smbfjs_id").data, ("%41").data)] ∧
    fpUA.getCookie (fpUA.setCookie (("%41").data) []) = .ok (some ['A']) ∧
    (['A'] : List Char) ≠ ("%41").data := by
  refine ⟨rfl, rfl, by decide⟩

/-- C7 (amended). The record is written verbatim (not percent-encoded) as
name=value;expires=HTTP-date;path=/;SameSite=Lax, and the read
percent-decodes and trims separator whitespace; hence, for every value
free of the record separator and of percent escapes (with a well-formed
name and store), write(v, d) followed immediately by read() returns v
unchanged. -/
theorem write_then_read_returns_value (fp : BrowserFingerprint) (jar : CookieJar)
    (v : List Char) (hn : plainName (jsToString fp.cookieName).data)
    (hjar : wfJar jar) (hv : plainVal v) :
    fp.getCookie (fp.setCookie v jar) = .ok (some v) :=
  cookie_roundtrip fp jar v hn hjar hv

/-- Witness for the amended C7 at a concrete hyphenated value. -/
theorem write_then_read_returns_value_witness :
    fpUA.getCookie (fpUA.setCookie (("abc-123").data) []) =
      .ok (some (("abc-123").data)) :=
  write_then_read_returns_value fpUA [] (("abc-123").data)
    (by decide) (by decide) (by decide)

/-- C10. A stored record with an empty value is treated as a cache miss:
get never returns the empty string as a visitorId (the computed id is
nonempty), the full collect-filter-hash-write pipeline runs, and the write
overwrites the empty record, so a subsequent read returns the new id. -/
theorem get_empty_record_is_cache_miss (fp : BrowserFingerprint) (jar : CookieJar)
    (rs : List SignalResult)
    (hn : plainName (jsToString fp.cookieName).data) (hjar : wfJar jar)
    (hread : fp.getCookie jar = .ok (some []))
    (hcol : collect fp.components = .ok rs) :
    fp.get jar =
      .ok (⟨hashComponents (selectStable rs), false, some rs⟩,
           fp.setCookie (hashComponents (selectStable rs)) jar) ∧
    hashComponents (selectStable rs) ≠ [] ∧
    fp.getCookie (fp.setCookie (hashComponents (selectStable rs)) jar) =
      .ok (some (hashComponents (selectStable rs))) := by
  refine ⟨?_, hashComponents_ne_nil _,
    cookie_roundtrip fp jar _ hn hjar (hashComponents_plainVal _)⟩
  rw [get_of_read_empty fp jar hread, getMiss_eq fp jar rs hcol]

/-- Witness for C10: a store holding an empty record for smbfjs_id makes
the mixed three-collector session recompute and overwrite. -/
theorem get_empty_record_is_cache_miss_witness :
    fpMixed.get [(("smbfjs_id").data, [])] =
      .ok (⟨hashComponents (selectStable
              [⟨"userAgent", .str "UA-X"⟩, ⟨"audio", .null⟩,
               ⟨"webgl", .str "WebGL unsupported"⟩]),
            false,
            some [⟨"userAgent", .str "UA-X"⟩, ⟨"audio", .null⟩,
                  ⟨"webgl", .str "WebGL unsupported"⟩]⟩,
           fpMixed.setCookie (hashComponents (selectStable
              [⟨"userAgent", .str "UA-X"⟩, ⟨"audio", .null⟩,
               ⟨"webgl", .str "WebGL unsupported"⟩])) [(("smbfjs_id").data, [])]) ∧
    hashComponents (selectStable
        [⟨"userAgent", .str "UA-X"⟩, ⟨"audio", .null⟩,
         ⟨"webgl", .str "WebGL unsupported"⟩]) ≠ [] ∧
    fpMixed.getCookie (fpMixed.setCookie (hashComponents (selectStable
        [⟨"userAgent", .str "UA-X"⟩, ⟨"audio", .null⟩,
         ⟨"webgl", .str "WebGL unsupported"⟩])) [(("smbfjs_id").data, [])]) =
      .ok (some (hashComponents (selectStable
        [⟨"userAgent", .str "UA-X"⟩, ⟨"audio", .null⟩,
         ⟨"webgl", .str "WebGL unsupported"⟩]))) :=
  get_empty_record_is_cache_miss fpMixed [(("smbfjs_id").data, [])]
    [⟨"userAgent", .str "UA-X"⟩, ⟨"audio", .null⟩,
     ⟨"webgl", .str "WebGL unsupported"⟩]
    (by decide) (by decide) rfl rfl

end SamarithanModel
